import Mathlib

/-!
# Verification of the BACI merge-and-sample pipeline

A shallow embedding, in Lean 4, of the core pipeline implemented in
`src/processor.py` (class `DataProcessor`), together with theorems settling
the frozen claims about it.

Modelling conventions:
* A pandas `DataFrame` of trade records is a `List` of row structures.
* A left-outer `pd.merge` on a key produces, for each left row, one output
  row per matching right row, or a single row with null (`none`) enrichment
  fields when no right row matches.  `lookupMatches` below captures exactly
  this per-row expansion.
* Nullable float columns are `Option ℚ`; `fillna` becomes `Option.getD`.
* The per-run pseudo-random state of numpy's global generator is made
  explicit as a `Nat` seed argument; the concrete generator is a linear
  congruential stand-in, which preserves the code-determined facts
  (sample size `round(frac * groupSize)`, sampling without replacement
  inside the group, determinism given the generator state).
* `concurrent.futures` tasks are modelled by their outcomes: the list of
  per-file results in submission order, each `Except.ok rows` (the task
  returned a dataframe) or `Except.error msg` (the task raised).
-/

namespace BACI

/-- One row of the country reference table (`country_codes.csv`), after
`analyze_files` has coerced `country_code` to `int`. -/
structure CountryEntry where
  country_code : Int
  country_name : String
  country_iso2 : String
  country_iso3 : String
deriving DecidableEq, Repr

/-- One row of the product reference table (`product_codes.csv`), after
`analyze_files` has coerced `code` to `str`. -/
structure ProductEntry where
  code : String
  description : String
deriving DecidableEq, Repr

/-- One raw row of a main `BACI_HS*` file as read by `pd.read_csv` in
`process_file` with dtypes `t,i,j : int64`, `k : object` (string),
`q,v : float64` nullable via `na_values`. -/
structure RawRow where
  t : Int
  i : Int
  j : Int
  k : String
  q : Option ℚ
  v : Option ℚ
deriving DecidableEq, Repr

/-- A raw row after `chunk.fillna({'q': 0, 'v': 0})`: the nullable value
columns have been imputed. -/
structure FilledRow where
  t : Int
  i : Int
  j : Int
  k : String
  q : ℚ
  v : ℚ
deriving DecidableEq, Repr

/-- `chunk.fillna({col: 0 for col in ['q', 'v']})`, row-wise: null `q`/`v`
become `0`, all other fields pass through unchanged. -/
def fillQV (r : RawRow) : FilledRow :=
  { t := r.t, i := r.i, j := r.j, k := r.k, q := r.q.getD 0, v := r.v.getD 0 }

/-- One row of the output of `process_chunk`: the trade fields plus the
columns added by the three left-outer merges (including the join-key
columns pandas keeps: `country_code`, `country_code_importer`, `code`). -/
structure EnrichedRow where
  t : Int
  i : Int
  j : Int
  k : String
  q : ℚ
  v : ℚ
  country_code : Option Int
  exporter_name : Option String
  exporter_iso2 : Option String
  exporter_iso3 : Option String
  country_code_importer : Option Int
  importer_name : Option String
  importer_iso2 : Option String
  importer_iso3 : Option String
  code : Option String
  description : Option String
deriving DecidableEq, Repr

/-- Left-outer-merge match list for one left row: all right rows satisfying
the key predicate, or the single null match when none does.  This is the
per-left-row semantics of `pd.merge(..., how='left')`. -/
def lookupMatches {α : Type} (p : α → Bool) (tbl : List α) : List (Option α) :=
  match tbl.filter p with
  | [] => [none]
  | m :: ms => (m :: ms).map some

/-- Matches of a country key against the country reference table. -/
def countryMatches (countries : List CountryEntry) (key : Int) :
    List (Option CountryEntry) :=
  lookupMatches (fun c => decide (c.country_code = key)) countries

/-- Matches of a product key against the product reference table. -/
def productMatches (products : List ProductEntry) (key : String) :
    List (Option ProductEntry) :=
  lookupMatches (fun p => decide (p.code = key)) products

/-- Assembly of one output row of `process_chunk` from a filled trade row
and the (possibly null) matches of the three merges, with the column
renames `country_* → exporter_*` / `importer_*` applied. -/
def enrich (r : FilledRow) (ec ic : Option CountryEntry)
    (pc : Option ProductEntry) : EnrichedRow :=
  { t := r.t, i := r.i, j := r.j, k := r.k, q := r.q, v := r.v,
    country_code := ec.map (fun c => c.country_code),
    exporter_name := ec.map (fun c => c.country_name),
    exporter_iso2 := ec.map (fun c => c.country_iso2),
    exporter_iso3 := ec.map (fun c => c.country_iso3),
    country_code_importer := ic.map (fun c => c.country_code),
    importer_name := ic.map (fun c => c.country_name),
    importer_iso2 := ic.map (fun c => c.country_iso2),
    importer_iso3 := ic.map (fun c => c.country_iso3),
    code := pc.map (fun p => p.code),
    description := pc.map (fun p => p.description) }

/-- `DataProcessor.process_chunk`: left-outer merge on `i` against the
country table (renamed to the exporter namespace), then on `j` against the
country table (suffix `_importer`), then on the (string) product key `k`
against the product table.  The `chunk['k'].astype(str)` step is the
identity here because `k` is already read with dtype `object` (string). -/
def process_chunk (countries : List CountryEntry) (products : List ProductEntry)
    (chunk : List FilledRow) : List EnrichedRow :=
  chunk.flatMap (fun r =>
    (countryMatches countries r.i).flatMap (fun ec =>
      (countryMatches countries r.j).flatMap (fun ic =>
        (productMatches products r.k).map (fun pc => enrich r ec ic pc))))

/-- The grouping key of `df.groupby(['t', 'i', 'j'])`. -/
def rowKey (r : EnrichedRow) : Int × Int × Int := (r.t, r.i, r.j)

/-- A linear congruential step: the explicit stand-in for one draw from
numpy's global generator (`x.sample` with no `random_state`). -/
def lcg (s : Nat) : Nat := (s * 1103515245 + 12345) % 2147483648

/-- Remove the element at position `i` (used for sampling without
replacement). -/
def removeNth {α : Type} (xs : List α) (i : Nat) : List α :=
  xs.take i ++ xs.drop (i + 1)

/-- Draw `k` elements without replacement from `xs`, the draws driven by
the explicit generator state `seed`.  Models `x.sample(n=k)` on a group. -/
def sampleK {α : Type} : Nat → Nat → List α → List α
  | _, 0, _ => []
  | _, _ + 1, [] => []
  | seed, k + 1, x :: xs =>
      let idx := seed % (x :: xs).length
      (x :: xs).get ⟨idx, Nat.mod_lt _ (Nat.succ_pos _)⟩ ::
        sampleK (lcg seed) k (removeNth (x :: xs) idx)

/-- Python's `round` (round-half-to-even), as used by pandas to turn
`frac * len(group)` into a sample size. -/
def pyRound (x : ℚ) : Int :=
  if x - ⌊x⌋ < 1 / 2 then ⌊x⌋
  else if 1 / 2 < x - ⌊x⌋ then ⌊x⌋ + 1
  else if ⌊x⌋ % 2 = 0 then ⌊x⌋ else ⌊x⌋ + 1

/-- Generator state used for one group's draw: the global state advances
between groups, so each group's draw depends on the run seed and its key. -/
def groupSeed (seed : Nat) (key : Int × Int × Int) : Nat :=
  lcg (seed + key.1.natAbs * 7919 + key.2.1.natAbs * 104729 +
    key.2.2.natAbs * 1299709)

/-- `DataProcessor.stratified_sample`: when `use_sample` is set, group by
`(t, i, j)` and apply `x.sample(frac=sample_frac)` to every group (the
source's `if len(x) > 0` guard is vacuous — groupby yields no empty
groups); otherwise return the dataframe unchanged.  Group enumeration
order does not affect any stated property. -/
def stratified_sample (use_sample : Bool) (sample_frac : ℚ) (seed : Nat)
    (df : List EnrichedRow) : List EnrichedRow :=
  if use_sample then
    ((df.map rowKey).dedup).flatMap (fun key =>
      let grp := df.filter (fun r => decide (rowKey r = key))
      sampleK (groupSeed seed key)
        (pyRound (sample_frac * (grp.length : ℚ))).toNat grp)
  else df

/-- Split a list into consecutive chunks of `max n 1` elements (the final
chunk may be shorter): `pd.read_csv(..., chunksize=n)`.  The fuel argument
(initially the list length) only makes the recursion structural; each step
consumes at least one element, so the fuel never runs out. -/
def chunksOfAux {α : Type} (n : Nat) : Nat → List α → List (List α)
  | 0, _ => []
  | _, [] => []
  | fuel + 1, x :: xs =>
      ((x :: xs).take (max n 1)) :: chunksOfAux n fuel ((x :: xs).drop (max n 1))

/-- The chunk sequence produced by the chunked reader for one file. -/
def chunksOf {α : Type} (n : Nat) (xs : List α) : List (List α) :=
  chunksOfAux n xs.length xs

/-- `DataProcessor.process_file`: read the file in chunks; for each chunk,
impute null `q`/`v` to 0, enrich it via `process_chunk`, sample it via
`stratified_sample`, and concatenate the per-chunk results in order
(`pd.concat(processed_chunks)`). -/
def process_file (countries : List CountryEntry) (products : List ProductEntry)
    (use_sample : Bool) (sample_frac : ℚ) (seed : Nat) (chunk_size : Nat)
    (rows : List RawRow) : List EnrichedRow :=
  (chunksOf chunk_size rows).flatMap (fun chunk =>
    stratified_sample use_sample sample_frac seed
      (process_chunk countries products (chunk.map fillQV)))

/-- `Series.nunique`: the number of distinct values in a column. -/
def nunique {β : Type} [DecidableEq β] (xs : List β) : Nat := xs.dedup.length

/-- The `Unique Countries` scalar of `DataProcessor.generate_summary`,
exactly as the source computes it:
`df['i'].nunique() + df['j'].nunique()`. -/
def summaryUniqueCountries (df : List EnrichedRow) : Nat :=
  nunique (df.map (fun r => r.i)) + nunique (df.map (fun r => r.j))

/-- Spec-side definition, following the spec's words: the count of
distinct identifiers appearing in the union of the exporter-code and
importer-code columns (a country appearing in both counts once).  Kept
separate from `summaryUniqueCountries` so the two can be compared. -/
def distinctCountriesUnion (df : List EnrichedRow) : Nat :=
  nunique (df.map (fun r => r.i) ++ df.map (fun r => r.j))

/-- The `Unique Products` scalar of `generate_summary`:
`df['k'].nunique()`. -/
def summaryUniqueProducts (df : List EnrichedRow) : Nat :=
  nunique (df.map (fun r => r.k))

/-- The grand total `df['v'].sum()` of `generate_summary`. -/
def summaryTotalTrade (df : List EnrichedRow) : ℚ :=
  (df.map (fun r => r.v)).sum

/-- The error taxonomy of the run coordinator: `NoDataProcessed` is the
`ValueError("No data was successfully processed")` of `process_data`;
`unsupportedFormat` is the `ValueError(f"Unsupported file format: ...")`
of `save_data`. -/
inductive RunError where
  | noDataProcessed : RunError
  | unsupportedFormat : String → RunError
deriving DecidableEq, Repr

/-- The result-size fields of the metadata dict written by `process_data`
(the remaining fields echo the configuration verbatim). -/
structure RunMetadata where
  total_rows_processed : Nat
  total_files_processed : Nat
deriving DecidableEq, Repr

/-- The formats `save_data` accepts. -/
def validFormats : List String := ["parquet", "feather", "csv", "hdf5"]

/-- The format dispatch of `DataProcessor.save_data`: a known format is
written by the corresponding (opaque) writer, anything else raises. -/
def save_data (fmt : String) : Except RunError Unit :=
  if fmt ∈ validFormats then Except.ok () else
    Except.error (RunError.unsupportedFormat fmt)

/-- One line delivered to the `log_callback` of `process_data`:
the per-file line `"Processed file {i+1} of {n}"` (carried by its ordinal
`i+1`), the three success-epilogue lines (`"Data processing complete..."`,
`"Summary statistics saved..."`, `"Processing metadata saved..."`), or the
fatal-path line `"Error: {str(e)}"` (carried by the error it reports). -/
inductive LogEvent where
  | fileProcessed : Nat → LogEvent
  | completeOutput : LogEvent
  | completeSummary : LogEvent
  | completeMetadata : LogEvent
  | errorLine : RunError → LogEvent
deriving DecidableEq, Repr

/-- The ordinal carried by a per-file log line, `none` for the epilogue
and error lines. -/
def logFileOrdinal : LogEvent → Option Nat
  | LogEvent.fileProcessed i => some i
  | _ => none

/-- The result-collection loop of `process_data`: iterate over the futures
in submission order, indexed by `i`; on success append the dataframe,
emit the progress percentage `int((i+1)/n*100)` and the log line
`"Processed file {i+1} of {n}"` (recorded here by its ordinal `i+1`);
on failure only log to the module logger — no callback fires.  Progress is
computed in exact arithmetic; Python evaluates the same expression in
floating point, which agrees on every realistic file count. -/
def processLoop {ε α : Type} (n : Nat) :
    Nat → List (Except ε (List α)) → List (List α) × List Nat × List Nat
  | _, [] => ([], [], [])
  | i, r :: rest =>
      let acc := processLoop n (i + 1) rest
      match r with
      | Except.ok d => (d :: acc.1, ((i + 1) * 100) / n :: acc.2.1, (i + 1) :: acc.2.2)
      | Except.error _ => acc

/-- `True` exactly when the per-file task returned a dataframe. -/
def isOk {ε α : Type} : Except ε α → Bool
  | Except.ok _ => true
  | Except.error _ => false

/-- The dataframes of the successful tasks, in submission order. -/
def oks {ε α : Type} : List (Except ε α) → List α
  | [] => []
  | Except.ok d :: rest => d :: oks rest
  | Except.error _ :: rest => oks rest

/-- The indices (counting from `i`) of the successful tasks, in order. -/
def succIdxFrom {ε α : Type} : List (Except ε α) → Nat → List Nat
  | [], _ => []
  | Except.ok _ :: rest, i => i :: succIdxFrom rest (i + 1)
  | Except.error _ :: rest, i => succIdxFrom rest (i + 1)

/-- The externally observable trace of one `process_data` run: the
progress percentages and log lines delivered to the callbacks, and the
outcome (final concatenated dataframe plus metadata, or the fatal error). -/
structure RunResult where
  progressEvents : List Nat
  logEvents : List LogEvent
  outcome : Except RunError (List EnrichedRow × RunMetadata)
deriving Repr

/-- `DataProcessor.process_data` after `analyze_files`: collect the
per-file task outcomes in submission order; if nothing succeeded raise
`NoDataProcessed`; otherwise concatenate the successful results in that
order, generate the summary (total in this model), dispatch on the output
format — which is validated only here, at the writer boundary — and write
the metadata, whose `total_files_processed` is `len(self.main_files)`,
the number of discovered files.  After the loop the log callback receives
either the three completion lines (success path) or, from the outer
`except` that re-raises a fatal error, the single `"Error: ..."` line. -/
def process_data (fmt : String)
    (results : List (Except String (List EnrichedRow))) : RunResult :=
  let r := processLoop results.length 0 results
  { progressEvents := r.2.1,
    logEvents := r.2.2.map LogEvent.fileProcessed ++
      (if r.1.isEmpty then [LogEvent.errorLine RunError.noDataProcessed]
       else
         match save_data fmt with
         | Except.error e => [LogEvent.errorLine e]
         | Except.ok _ =>
             [LogEvent.completeOutput, LogEvent.completeSummary,
              LogEvent.completeMetadata]),
    outcome :=
      if r.1.isEmpty then Except.error RunError.noDataProcessed
      else
        match save_data fmt with
        | Except.error e => Except.error e
        | Except.ok _ =>
            Except.ok (r.1.flatten,
              { total_rows_processed := r.1.flatten.length,
                total_files_processed := results.length }) }

/-! ### Concrete inputs used by counterexamples and witnesses -/

/-- An enriched row with no resolved reference data. -/
def mkPlainRow (t i j : Int) (n : Nat) : EnrichedRow :=
  { t := t, i := i, j := j, k := "0101", q := (n : ℚ), v := 0,
    country_code := none, exporter_name := none, exporter_iso2 := none,
    exporter_iso3 := none, country_code_importer := none, importer_name := none,
    importer_iso2 := none, importer_iso3 := none, code := none,
    description := none }

/-- A single enriched row, exporter code 1, importer code 2. -/
def row0 : EnrichedRow := mkPlainRow 2020 1 2 0

/-- A merged dataset of one row whose exporter code and importer code are
the same country, 1. -/
def selfTradeDf : List EnrichedRow := [mkPlainRow 2020 1 1 0]

/-- Ten distinct rows in the sampling group `(2020, 1, 2)` plus one row in
the distinct group `(2021, 3, 4)`. -/
def df10 : List EnrichedRow :=
  (List.range 10).map (mkPlainRow 2020 1 2) ++ [mkPlainRow 2021 3 4 0]

/-- Task outcomes of a run whose first file succeeds (one row) and whose
second (last-submitted) file raises. -/
def runMixed : List (Except String (List EnrichedRow)) :=
  [Except.ok [row0], Except.error "corrupted file"]

/-- Task outcomes of a run with a single succeeding file. -/
def runOneOk : List (Except String (List EnrichedRow)) := [Except.ok [row0]]

/-- A one-entry country table and a trade row whose importer and product
keys have no match in the reference tables. -/
def countriesW : List CountryEntry :=
  [{ country_code := 1, country_name := "CountryA",
     country_iso2 := "CA", country_iso3 := "CAA" }]

/-- An empty product reference table. -/
def productsW : List ProductEntry := []

/-- A filled trade row: exporter 1 (matched), importer 99 (unmatched). -/
def rowW : FilledRow := { t := 2020, i := 1, j := 99, k := "0101", q := 1, v := 2 }

/-- A raw row with null quantity and value 5. -/
def rawNull : RawRow := { t := 2020, i := 1, j := 2, k := "0101", q := none, v := some 5 }

/-! ## Lemmas about the join engine -/

/-- With pairwise-distinct keys, at most one table row matches a key. -/
lemma filter_keyOf_length_le_one {α β : Type} [DecidableEq β] (keyOf : α → β)
    (k : β) (tbl : List α)
    (h : tbl.Pairwise (fun a b => keyOf a ≠ keyOf b)) :
    (tbl.filter (fun x => decide (keyOf x = k))).length ≤ 1 := by
  induction tbl with
  | nil => simp
  | cons c cs ih =>
    rw [List.pairwise_cons] at h
    rw [List.filter_cons]
    by_cases hc : keyOf c = k
    · have hnil : cs.filter (fun x => decide (keyOf x = k)) = [] := by
        rw [List.filter_eq_nil_iff]
        intro a ha
        simp only [decide_eq_true_eq]
        intro hak
        exact h.1 a ha (by rw [hc, hak])
      simp [hc, hnil]
    · simp only [hc, decide_False, if_false, Bool.false_eq_true]
      exact ih h.2

/-- The match list of a left-outer merge is a singleton whenever at most
one table row matches; its element is `none` exactly when no row does. -/
lemma lookupMatches_cases {α : Type} (p : α → Bool) (tbl : List α)
    (hlen : (tbl.filter p).length ≤ 1) :
    ∃ o : Option α, lookupMatches p tbl = [o]
      ∧ (o = none ↔ ∀ a ∈ tbl, ¬ p a = true)
      ∧ (∀ a, o = some a → a ∈ tbl ∧ p a = true) := by
  unfold lookupMatches
  cases hf : tbl.filter p with
  | nil =>
    refine ⟨none, rfl, ?_, by simp⟩
    simp only [true_iff]
    intro a ha hp
    have : a ∈ tbl.filter p := List.mem_filter.mpr ⟨ha, hp⟩
    rw [hf] at this
    exact absurd this (List.not_mem_nil a)
  | cons m ms =>
    cases ms with
    | nil =>
      have hm : m ∈ tbl.filter p := by rw [hf]; exact List.mem_singleton_self m
      have hm' := List.mem_filter.mp hm
      refine ⟨some m, by simp, ?_, ?_⟩
      · constructor
        · intro h; exact absurd h (by simp)
        · intro h; exact absurd (h m hm'.1) (by simp [hm'.2])
      · intro a ha
        rw [Option.some_inj] at ha
        exact ha ▸ hm'
    | cons m' ms' => simp [hf] at hlen

/-- Under unique reference keys, each left row of `process_chunk` expands
to exactly one output row, with `none` matches exactly for absent keys. -/
lemma process_chunk_row (countries : List CountryEntry)
    (products : List ProductEntry)
    (hc : countries.Pairwise fun a b => a.country_code ≠ b.country_code)
    (hp : products.Pairwise fun a b => a.code ≠ b.code) (r : FilledRow) :
    ∃ eo io po,
      ((countryMatches countries r.i).flatMap (fun ec =>
        (countryMatches countries r.j).flatMap (fun ic =>
          (productMatches products r.k).map (fun pc => enrich r ec ic pc))))
        = [enrich r eo io po]
      ∧ ((∀ c ∈ countries, c.country_code ≠ r.i) → eo = none)
      ∧ ((∀ c ∈ countries, c.country_code ≠ r.j) → io = none)
      ∧ ((∀ a ∈ products, a.code ≠ r.k) → po = none) := by
  obtain ⟨eo, heo, heon, -⟩ :=
    lookupMatches_cases _ countries (filter_keyOf_length_le_one _ r.i countries hc)
  obtain ⟨io, hio, hion, -⟩ :=
    lookupMatches_cases _ countries (filter_keyOf_length_le_one _ r.j countries hc)
  obtain ⟨po, hpo, hpon, -⟩ :=
    lookupMatches_cases _ products (filter_keyOf_length_le_one _ r.k products hp)
  refine ⟨eo, io, po, ?_, ?_, ?_, ?_⟩
  · rw [show countryMatches countries r.i = [eo] from heo,
      show countryMatches countries r.j = [io] from hio,
      show productMatches products r.k = [po] from hpo]
    simp
  · intro h
    exact heon.mpr (by intro a ha; simp only [decide_eq_true_eq]; exact h a ha)
  · intro h
    exact hion.mpr (by intro a ha; simp only [decide_eq_true_eq]; exact h a ha)
  · intro h
    exact hpon.mpr (by intro a ha; simp only [decide_eq_true_eq]; exact h a ha)

/-- A flatMap whose pieces are all singletons preserves length. -/
lemma flatMap_length_of_singleton {α β : Type} (l : List α) (g : α → List β)
    (h : ∀ a ∈ l, (g a).length = 1) : (l.flatMap g).length = l.length := by
  induction l with
  | nil => simp
  | cons x xs ih =>
    simp only [List.flatMap_cons, List.length_append, List.length_cons]
    rw [h x (List.mem_cons_self x xs), ih (fun a ha => h a (List.mem_cons_of_mem x ha))]
    omega

/-! ## Claim C4 -/

/-- C4: for every raw batch and every pair of reference tables with unique
keys, `process_chunk` returns a batch with exactly the input's row count,
and every row whose exporter, importer, or product key has no match in the
reference tables is retained with its original trade fields and null
enrichment fields — never dropped.  (`process_chunk` is a total function
of the embedding, mirroring that the left-outer merges raise no error.) -/
theorem c4_join_preserves_rows (countries : List CountryEntry)
    (products : List ProductEntry) (chunk : List FilledRow)
    (hc : countries.Pairwise fun a b => a.country_code ≠ b.country_code)
    (hp : products.Pairwise fun a b => a.code ≠ b.code) :
    (process_chunk countries products chunk).length = chunk.length
    ∧ ∀ r ∈ chunk, ∃ e ∈ process_chunk countries products chunk,
        e.t = r.t ∧ e.i = r.i ∧ e.j = r.j ∧ e.k = r.k ∧ e.q = r.q ∧ e.v = r.v
        ∧ ((∀ c ∈ countries, c.country_code ≠ r.i) →
            e.exporter_name = none ∧ e.exporter_iso2 = none ∧ e.exporter_iso3 = none)
        ∧ ((∀ c ∈ countries, c.country_code ≠ r.j) →
            e.importer_name = none ∧ e.importer_iso2 = none ∧ e.importer_iso3 = none)
        ∧ ((∀ a ∈ products, a.code ≠ r.k) → e.description = none) := by
  constructor
  · apply flatMap_length_of_singleton
    intro r _
    obtain ⟨eo, io, po, heq, -, -, -⟩ := process_chunk_row countries products hc hp r
    rw [heq]
    rfl
  · intro r hr
    obtain ⟨eo, io, po, heq, hei, hii, hpi⟩ :=
      process_chunk_row countries products hc hp r
    refine ⟨enrich r eo io po, ?_, rfl, rfl, rfl, rfl, rfl, rfl, ?_, ?_, ?_⟩
    · exact List.mem_flatMap.mpr ⟨r, hr, by rw [heq]; exact List.mem_singleton_self _⟩
    · intro h
      rw [hei h]
      exact ⟨rfl, rfl, rfl⟩
    · intro h
      rw [hii h]
      exact ⟨rfl, rfl, rfl⟩
    · intro h
      rw [hpi h]
      rfl

/-- Witness for C4: on a one-country table, an empty product table and a
one-row batch with unmatched importer and product keys, the output has
one row, and that row keeps the trade fields with null importer and
product enrichment. -/
theorem c4_witness :
    (process_chunk countriesW productsW [rowW]).length = 1
    ∧ ∃ e ∈ process_chunk countriesW productsW [rowW],
        e.j = 99 ∧ e.importer_name = none ∧ e.description = none := by
  have h := c4_join_preserves_rows countriesW productsW [rowW]
    (by simp [countriesW]) (by simp [productsW])
  refine ⟨h.1, ?_⟩
  obtain ⟨e, he, -, -, hj, -, -, -, -, himp, hdesc⟩ :=
    h.2 rowW (List.mem_singleton_self rowW)
  exact ⟨e, he, by rw [hj]; rfl, (himp (by decide)).1, hdesc (by decide)⟩

/-! ## Lemmas about the stratified sampler -/

lemma removeNth_length {α : Type} (xs : List α) (i : Nat) (h : i < xs.length) :
    (removeNth xs i).length = xs.length - 1 := by
  unfold removeNth
  rw [List.length_append, List.length_take, List.length_drop]
  omega

lemma removeNth_subset {α : Type} (xs : List α) (i : Nat) :
    ∀ y ∈ removeNth xs i, y ∈ xs := by
  intro y hy
  rcases List.mem_append.mp hy with h | h
  · exact List.take_subset i xs h
  · exact List.drop_subset (i + 1) xs h

/-- A sample without replacement has size `min k n`. -/
lemma sampleK_length {α : Type} :
    ∀ (k seed : Nat) (xs : List α), (sampleK seed k xs).length = min k xs.length := by
  intro k
  induction k with
  | zero => intro seed xs; simp [sampleK]
  | succ k ih =>
    intro seed xs
    cases xs with
    | nil => simp [sampleK]
    | cons x xs =>
      rw [sampleK, List.length_cons]
      rw [ih (lcg seed) (removeNth (x :: xs) (seed % (x :: xs).length))]
      rw [removeNth_length _ _ (Nat.mod_lt _ (by simp))]
      simp only [List.length_cons]
      omega

/-- Every sampled element comes from the input list. -/
lemma sampleK_subset {α : Type} :
    ∀ (k seed : Nat) (xs : List α), ∀ y ∈ sampleK seed k xs, y ∈ xs := by
  intro k
  induction k with
  | zero => intro seed xs y hy; simp [sampleK] at hy
  | succ k ih =>
    intro seed xs y hy
    cases xs with
    | nil => simp [sampleK] at hy
    | cons x xs =>
      rw [sampleK] at hy
      rcases List.mem_cons.mp hy with h | h
      · rw [h]; exact List.get_mem _ _ _
      · exact removeNth_subset _ _ y (ih _ _ y h)

lemma pyRound_nonneg (x : ℚ) (hx : 0 ≤ x) : 0 ≤ pyRound x := by
  have hf : (0 : ℤ) ≤ ⌊x⌋ := Int.floor_nonneg.mpr hx
  unfold pyRound
  split_ifs <;> omega

/-- With a fraction at most 1, the rounded sample size never exceeds the
group size. -/
lemma pyRound_le_nat (x : ℚ) (n : ℕ) (hxn : x ≤ (n : ℚ)) :
    pyRound x ≤ (n : ℤ) := by
  have hfl : ⌊x⌋ ≤ (n : ℤ) := by
    have := Int.floor_le_floor hxn
    rwa [Int.floor_natCast] at this
  unfold pyRound
  split_ifs with h1 h2 h3
  · exact hfl
  all_goals {
    have hne : ⌊x⌋ ≠ (n : ℤ) := by
      intro he
      apply h1
      have hle : x ≤ (⌊x⌋ : ℚ) := by rw [he]; exact_mod_cast hxn
      have := Int.floor_le x
      have : x - (⌊x⌋ : ℚ) ≤ 0 := by linarith
      linarith
    omega }

/-- Filtering distributes over flatMap. -/
lemma filter_flatMap_eq {α β : Type} (l : List α) (g : α → List β) (p : β → Bool) :
    (l.flatMap g).filter p = l.flatMap (fun a => (g a).filter p) := by
  induction l with
  | nil => simp
  | cons x xs ih => simp [List.filter_append, ih]

/-- In a flatMap over a duplicate-free list in which every key other than
`key` contributes nothing, the total length is the length of `key`'s
contribution. -/
lemma flatMap_length_single {α β : Type} [DecidableEq α] (l : List α)
    (g : α → List β) (key : α) (hnd : l.Nodup) (hk : key ∈ l)
    (hz : ∀ a ∈ l, a ≠ key → g a = []) :
    (l.flatMap g).length = (g key).length := by
  induction l with
  | nil => exact absurd hk (List.not_mem_nil key)
  | cons x xs ih =>
    rw [List.nodup_cons] at hnd
    rcases List.mem_cons.mp hk with h | h
    · have hxs : ∀ a ∈ xs, g a = [] := by
        intro a ha
        refine hz a (List.mem_cons_of_mem x ha) (fun he => hnd.1 ?_)
        rw [h] at he
        exact he ▸ ha
      have hnil : xs.flatMap g = [] := by
        rw [List.flatMap_eq_nil_iff]
        exact hxs
      rw [List.flatMap_cons, hnil, List.append_nil, ← h]
    · have hx : g x = [] := hz x (List.mem_cons_self x xs)
        (fun he => hnd.1 (he ▸ h))
      simp only [List.flatMap_cons, hx, List.nil_append]
      exact ih hnd.2 h (fun a ha => hz a (List.mem_cons_of_mem x ha))

/-- A flatMap over contributions that are all empty is empty. -/
lemma flatMap_eq_nil_of_all {α β : Type} (l : List α) (g : α → List β)
    (hz : ∀ a ∈ l, g a = []) : l.flatMap g = [] := by
  rw [List.flatMap_eq_nil_iff]
  exact hz

lemma pyRound_zero : pyRound 0 = 0 := by norm_num [pyRound]

/-- Core counting lemma for the sampler: for every group key, the output
rows carrying that key number exactly `round(frac * groupSize)`. -/
lemma stratified_sample_count (f : ℚ) (seed : Nat) (df : List EnrichedRow)
    (_hf0 : 0 < f) (hf1 : f ≤ 1) (key : Int × Int × Int) :
    ((stratified_sample true f seed df).filter
        (fun r => decide (rowKey r = key))).length
      = (pyRound (f *
          ((df.filter (fun r => decide (rowKey r = key))).length : ℚ))).toNat := by
  have hs : stratified_sample true f seed df
      = ((df.map rowKey).dedup).flatMap (fun k =>
          sampleK (groupSeed seed k)
            (pyRound (f *
              ((df.filter (fun r => decide (rowKey r = k))).length : ℚ))).toNat
            (df.filter (fun r => decide (rowKey r = k)))) := by
    simp [stratified_sample]
  rw [hs, filter_flatMap_eq]
  set G := fun k => sampleK (groupSeed seed k)
    (pyRound (f *
      ((df.filter (fun r => decide (rowKey r = k))).length : ℚ))).toNat
    (df.filter (fun r => decide (rowKey r = k))) with hG
  have hGmem : ∀ k, ∀ y ∈ G k, rowKey y = k := by
    intro k y hy
    have hyf : y ∈ df.filter (fun r => decide (rowKey r = k)) :=
      sampleK_subset _ _ _ y hy
    have := (List.mem_filter.mp hyf).2
    simpa using this
  have hz : ∀ a ∈ (df.map rowKey).dedup, a ≠ key →
      (G a).filter (fun r => decide (rowKey r = key)) = [] := by
    intro a _ hne
    rw [List.filter_eq_nil_iff]
    intro y hy
    simp only [decide_eq_true_eq]
    intro hk
    exact hne ((hGmem a y hy) ▸ hk)
  by_cases hmem : key ∈ (df.map rowKey).dedup
  · rw [flatMap_length_single _ _ key (List.nodup_dedup _) hmem hz]
    have hself : (G key).filter (fun r => decide (rowKey r = key)) = G key := by
      rw [List.filter_eq_self]
      intro y hy
      simp [hGmem key y hy]
    rw [hself, hG]
    rw [sampleK_length]
    set L := (df.filter (fun r => decide (rowKey r = key))).length with hL
    have hle : (pyRound (f * (L : ℚ))).toNat ≤ L := by
      rw [Int.toNat_le]
      apply pyRound_le_nat
      calc f * (L : ℚ) ≤ 1 * (L : ℚ) :=
            mul_le_mul_of_nonneg_right hf1 (Nat.cast_nonneg L)
        _ = (L : ℚ) := one_mul _
    omega
  · have hflat : ((df.map rowKey).dedup).flatMap
        (fun a => (G a).filter (fun r => decide (rowKey r = key))) = [] := by
      apply flatMap_eq_nil_of_all
      intro a ha
      exact hz a ha (fun he => hmem (he ▸ ha))
    rw [hflat]
    have hgrp : df.filter (fun r => decide (rowKey r = key)) = [] := by
      rw [List.filter_eq_nil_iff]
      intro r hr
      simp only [decide_eq_true_eq]
      intro hk
      exact hmem (List.mem_dedup.mpr (List.mem_map.mpr ⟨r, hr, hk⟩))
    rw [hgrp]
    simp [pyRound_zero]

/-! ## Claim C5 -/

/-- C5: with sampling enabled and fraction `f ∈ (0,1]`, each
`(period, exporterCode, importerCode)` group of size `n` contributes
exactly `round(f * n)` rows (Python's round-half-to-even), all drawn from
that group only, and the output contains no row that is not in the input.
The sampler is a pure function of the explicit generator state `seed`
(the numpy global state the source's `x.sample` reads), so the selection
is deterministic once that state is fixed. -/
theorem c5_stratified_group_counts (f : ℚ) (seed : Nat)
    (df : List EnrichedRow) (hf0 : 0 < f) (hf1 : f ≤ 1) :
    (∀ key : Int × Int × Int,
      ((stratified_sample true f seed df).filter
          (fun r => decide (rowKey r = key))).length
        = (pyRound (f *
            ((df.filter (fun r => decide (rowKey r = key))).length : ℚ))).toNat)
    ∧ ∀ r ∈ stratified_sample true f seed df, r ∈ df := by
  constructor
  · exact fun key => stratified_sample_count f seed df hf0 hf1 key
  · intro r hr
    have hs : stratified_sample true f seed df
        = ((df.map rowKey).dedup).flatMap (fun k =>
            sampleK (groupSeed seed k)
              (pyRound (f *
                ((df.filter (fun x => decide (rowKey x = k))).length : ℚ))).toNat
              (df.filter (fun x => decide (rowKey x = k)))) := by
      simp [stratified_sample]
    rw [hs] at hr
    obtain ⟨k, -, hrk⟩ := List.mem_flatMap.mp hr
    exact (List.mem_filter.mp (sampleK_subset _ _ _ r hrk)).1

/-- Witness for C5 at fraction `1/2`, seed `0`, on a dataset with a
10-row group `(2020,1,2)` and a 1-row group `(2021,3,4)`: the first group
contributes exactly `round(0.5 * 10) = 5` rows, the second exactly
`round(0.5 * 1) = 0` rows, so nothing leaks across groups. -/
theorem c5_witness :
    ((stratified_sample true (1/2) 0 df10).filter
        (fun r => decide (rowKey r = ((2020 : Int), (1 : Int), (2 : Int))))).length = 5
    ∧ ((stratified_sample true (1/2) 0 df10).filter
        (fun r => decide (rowKey r = ((2021 : Int), (3 : Int), (4 : Int))))).length = 0 := by
  have h := c5_stratified_group_counts (1/2) 0 df10 (by norm_num) (by norm_num)
  constructor
  · rw [h.1 (2020, 1, 2)]
    have h10 : ((df10.filter
        (fun r => decide (rowKey r = ((2020 : Int), (1 : Int), (2 : Int))))).length) = 10 := by
      decide
    rw [h10]
    norm_num [pyRound]
    decide
  · rw [h.1 (2021, 3, 4)]
    have h1 : ((df10.filter
        (fun r => decide (rowKey r = ((2021 : Int), (3 : Int), (4 : Int))))).length) = 1 := by
      decide
    rw [h1]
    norm_num [pyRound]

/-! ## Claim C6 -/

/-- C6: with sampling disabled, `stratified_sample` is the identity: its
output is exactly its input, unchanged. -/
theorem c6_disabled_identity (f : ℚ) (seed : Nat) (df : List EnrichedRow) :
    stratified_sample false f seed df = df := rfl

/-! ## Lemmas about the file pipeline coordinator -/

/-- Closed form of the collection loop: the successful dataframes in
submission order, and one progress and one log event per success, indexed
by submission position. -/
lemma processLoop_spec {ε α : Type} (n : Nat) :
    ∀ (results : List (Except ε (List α))) (i : Nat),
      processLoop n i results
        = (oks results,
           (succIdxFrom results i).map (fun x => ((x + 1) * 100) / n),
           (succIdxFrom results i).map (fun x => x + 1)) := by
  intro results
  induction results with
  | nil => intro i; rfl
  | cons r rest ih =>
    intro i
    cases r with
    | ok d => simp [processLoop, succIdxFrom, oks, ih]
    | error e => simp [processLoop, succIdxFrom, oks, ih]

/-- No task succeeded exactly when the collected list is empty. -/
lemma oks_eq_nil_iff {ε α : Type} (results : List (Except ε α)) :
    oks results = [] ↔ ∀ r ∈ results, isOk r = false := by
  induction results with
  | nil => simp [oks]
  | cons r rest ih =>
    cases r with
    | ok d => simp [oks, isOk]
    | error e => simp [oks, isOk, ih]

/-- Success indices characterised by the task outcome at that position. -/
lemma mem_succIdxFrom {ε α : Type} :
    ∀ (results : List (Except ε α)) (j i : Nat),
      i ∈ succIdxFrom results j
        ↔ (j ≤ i ∧ ∃ d, results[i - j]? = some (Except.ok d)) := by
  intro results
  induction results with
  | nil => intro j i; simp [succIdxFrom]
  | cons r rest ih =>
    intro j i
    have harith : j + 1 ≤ i → i - j = (i - (j + 1)) + 1 := by omega
    cases r with
    | ok d =>
      simp only [succIdxFrom, List.mem_cons]
      constructor
      · rintro (rfl | h)
        · exact ⟨le_refl i, d, by simp⟩
        · obtain ⟨hji, d', hd'⟩ := (ih (j + 1) i).mp h
          refine ⟨by omega, d', ?_⟩
          rw [harith hji, List.getElem?_cons_succ]
          exact hd'
      · rintro ⟨hji, d', hd'⟩
        by_cases hij : i = j
        · exact Or.inl hij
        · refine Or.inr ((ih (j + 1) i).mpr ⟨by omega, d', ?_⟩)
          rw [harith (by omega), List.getElem?_cons_succ] at hd'
          exact hd'
    | error e =>
      simp only [succIdxFrom]
      rw [ih (j + 1) i]
      constructor
      · rintro ⟨hji, d', hd'⟩
        refine ⟨by omega, d', ?_⟩
        rw [harith hji, List.getElem?_cons_succ]
        exact hd'
      · rintro ⟨hji, d', hd'⟩
        by_cases hij : i = j
        · subst hij
          simp at hd'
        · refine ⟨by omega, d', ?_⟩
          rw [harith (by omega), List.getElem?_cons_succ] at hd'
          exact hd'

/-- Every success index lies in `[j, j + number of tasks)`. -/
lemma succIdxFrom_bounds {ε α : Type} :
    ∀ (results : List (Except ε α)) (j : Nat),
      ∀ x ∈ succIdxFrom results j, j ≤ x ∧ x < j + results.length := by
  intro results
  induction results with
  | nil => intro j x hx; simp [succIdxFrom] at hx
  | cons r rest ih =>
    intro j x hx
    cases r with
    | ok d =>
      rcases List.mem_cons.mp hx with h | h
      · subst h; simp
      · have := ih (j + 1) x h
        constructor <;> [omega; (simp only [List.length_cons]; omega)]
    | error e =>
      have := ih (j + 1) x hx
      constructor <;> [omega; (simp only [List.length_cons]; omega)]

/-- Success indices are emitted in strictly increasing order. -/
lemma succIdxFrom_chain {ε α : Type} :
    ∀ (results : List (Except ε α)) (j : Nat),
      (succIdxFrom results j).Chain' (· < ·) := by
  intro results
  induction results with
  | nil => intro j; simp [succIdxFrom]
  | cons r rest ih =>
    intro j
    cases r with
    | ok d =>
      rw [succIdxFrom, List.chain'_cons']
      refine ⟨?_, ih (j + 1)⟩
      intro b hb
      have hbm : b ∈ succIdxFrom rest (j + 1) := List.mem_of_mem_head? hb
      have := (succIdxFrom_bounds rest (j + 1) b hbm).1
      omega
    | error e => exact ih (j + 1)

/-- One progress event and one log event per success. -/
lemma succIdxFrom_length {ε α : Type} :
    ∀ (results : List (Except ε α)) (j : Nat),
      (succIdxFrom results j).length = (oks results).length := by
  intro results
  induction results with
  | nil => intro j; rfl
  | cons r rest ih =>
    intro j
    cases r with
    | ok d => simp [succIdxFrom, oks, ih]
    | error e => simp [succIdxFrom, oks, ih]

lemma mem_of_getLast?_eq {α : Type} :
    ∀ (l : List α) (a : α), l.getLast? = some a → a ∈ l
  | [], _, h => by simp at h
  | [x], a, h => by
      simp only [List.getLast?_singleton, Option.some_inj] at h
      simp [h]
  | x :: y :: t, a, h => by
      rw [List.getLast?_cons_cons] at h
      exact List.mem_cons_of_mem x (mem_of_getLast?_eq (y :: t) a h)

lemma getLast?_map_eq {α β : Type} (f : α → β) :
    ∀ l : List α, (l.map f).getLast? = (l.getLast?).map f
  | [] => rfl
  | [x] => rfl
  | x :: y :: t => by
      rw [List.map_cons, List.map_cons, List.getLast?_cons_cons,
        List.getLast?_cons_cons, ← List.map_cons]
      exact getLast?_map_eq f (y :: t)

/-- The last success index is the last submission index exactly when the
last-submitted task succeeded. -/
lemma succIdxFrom_getLast {ε α : Type} :
    ∀ (results : List (Except ε α)) (j : Nat),
      (succIdxFrom results j).getLast? = some (j + results.length - 1)
        ↔ ∃ d, results.getLast? = some (Except.ok d) := by
  intro results
  induction results with
  | nil => intro j; simp [succIdxFrom]
  | cons r rest ih =>
    intro j
    cases rest with
    | nil =>
      cases r with
      | ok d => simp [succIdxFrom]
      | error e => simp [succIdxFrom]
    | cons r' rest' =>
      have hlast : (r :: r' :: rest').getLast? = (r' :: rest').getLast? :=
        List.getLast?_cons_cons
      have harith : j + (r :: r' :: rest').length - 1
          = (j + 1) + (r' :: rest').length - 1 := by
        simp only [List.length_cons]; omega
      rw [hlast, harith]
      cases r with
      | error e => exact ih (j + 1)
      | ok d =>
        rw [show succIdxFrom (Except.ok d :: r' :: rest') j
            = j :: succIdxFrom (r' :: rest') (j + 1) from rfl]
        rcases hs : succIdxFrom (r' :: rest') (j + 1) with _ | ⟨c, s'⟩
        · rw [show ([j] : List Nat).getLast? = some j from rfl]
          constructor
          · intro h
            rw [Option.some_inj] at h
            have : (j + 1) + (r' :: rest').length - 1 ≥ j + 1 := by
              simp only [List.length_cons]; omega
            omega
          · rintro ⟨d', hd'⟩
            have := (ih (j + 1)).mpr ⟨d', hd'⟩
            rw [hs] at this
            simp at this
        · rw [show (j :: c :: s').getLast? = (c :: s').getLast? from
            List.getLast?_cons_cons]
          rw [← hs]
          exact ih (j + 1)

/-- The delivered progress trace, independent of the outcome branch: the
source fires `progress_callback` nowhere outside the collection loop. -/
lemma process_data_progress (fmt : String)
    (results : List (Except String (List EnrichedRow))) :
    (process_data fmt results).progressEvents
        = (succIdxFrom results 0).map (fun x => ((x + 1) * 100) / results.length) := by
  unfold process_data
  rw [processLoop_spec]

/-- Log trace when no task succeeded: the per-file lines (none) followed
by the fatal `NoDataProcessed` error line. -/
lemma process_data_log_err (fmt : String)
    (results : List (Except String (List EnrichedRow)))
    (h : oks results = []) :
    (process_data fmt results).logEvents
      = (succIdxFrom results 0).map (fun x => LogEvent.fileProcessed (x + 1))
        ++ [LogEvent.errorLine RunError.noDataProcessed] := by
  unfold process_data
  rw [processLoop_spec]
  dsimp only
  rw [if_pos (by simp [h]), List.map_map]
  rfl

/-- Log trace of a valid-format run with at least one success: the
per-file lines followed by the three completion lines. -/
lemma process_data_log_ok (fmt : String)
    (results : List (Except String (List EnrichedRow)))
    (hfmt : fmt ∈ validFormats) (h : oks results ≠ []) :
    (process_data fmt results).logEvents
      = (succIdxFrom results 0).map (fun x => LogEvent.fileProcessed (x + 1))
        ++ [LogEvent.completeOutput, LogEvent.completeSummary,
            LogEvent.completeMetadata] := by
  unfold process_data
  rw [processLoop_spec]
  dsimp only
  rw [if_neg (by simpa [List.isEmpty_iff] using h)]
  unfold save_data
  rw [if_pos hfmt, List.map_map]
  rfl

/-- Log trace of an invalid-format run with at least one success: the
per-file lines followed by the `"Error: Unsupported file format"` line. -/
lemma process_data_log_badfmt (fmt : String)
    (results : List (Except String (List EnrichedRow)))
    (hfmt : fmt ∉ validFormats) (h : oks results ≠ []) :
    (process_data fmt results).logEvents
      = (succIdxFrom results 0).map (fun x => LogEvent.fileProcessed (x + 1))
        ++ [LogEvent.errorLine (RunError.unsupportedFormat fmt)] := by
  unfold process_data
  rw [processLoop_spec]
  dsimp only
  rw [if_neg (by simpa [List.isEmpty_iff] using h)]
  unfold save_data
  rw [if_neg hfmt, List.map_map]
  rfl

/-- In every branch, the log trace is the per-file lines in submission
order followed by a tail containing no per-file line. -/
lemma process_data_log_split (fmt : String)
    (results : List (Except String (List EnrichedRow))) :
    ∃ tail, (process_data fmt results).logEvents
        = (succIdxFrom results 0).map (fun x => LogEvent.fileProcessed (x + 1))
          ++ tail
      ∧ ∀ i, LogEvent.fileProcessed i ∉ tail := by
  by_cases h : oks results = []
  · exact ⟨_, process_data_log_err fmt results h, by intro i; simp⟩
  · by_cases hfmt : fmt ∈ validFormats
    · exact ⟨_, process_data_log_ok fmt results hfmt h, by intro i; simp⟩
    · exact ⟨_, process_data_log_badfmt fmt results hfmt h, by intro i; simp⟩

/-- Extracting the per-file ordinals from per-file lines. -/
lemma filterMap_fileProcessed (l : List Nat) :
    (l.map (fun x => LogEvent.fileProcessed (x + 1))).filterMap logFileOrdinal
      = l.map (fun x => x + 1) := by
  induction l with
  | nil => rfl
  | cons x xs ih => simp [List.filterMap_cons, logFileOrdinal, ih]

lemma logFileOrdinal_eq_none (ev : LogEvent)
    (h : ∀ i, ev ≠ LogEvent.fileProcessed i) : logFileOrdinal ev = none := by
  cases ev with
  | fileProcessed i => exact absurd rfl (h i)
  | completeOutput => rfl
  | completeSummary => rfl
  | completeMetadata => rfl
  | errorLine e => rfl

/-- The per-file ordinals recoverable from the full log trace are exactly
the success ordinals, in submission order. -/
lemma process_data_log_ordinals (fmt : String)
    (results : List (Except String (List EnrichedRow))) :
    (process_data fmt results).logEvents.filterMap logFileOrdinal
      = (succIdxFrom results 0).map (fun x => x + 1) := by
  obtain ⟨tail, hsplit, htail⟩ := process_data_log_split fmt results
  rw [hsplit, List.filterMap_append, filterMap_fileProcessed]
  have hnil : tail.filterMap logFileOrdinal = [] := by
    rw [List.filterMap_eq_nil_iff]
    intro ev hev
    exact logFileOrdinal_eq_none ev (fun i he => htail i (he ▸ hev))
  rw [hnil, List.append_nil]

/-- Outcome when no task succeeded. -/
lemma process_data_outcome_err (fmt : String)
    (results : List (Except String (List EnrichedRow)))
    (h : oks results = []) :
    (process_data fmt results).outcome = Except.error RunError.noDataProcessed := by
  unfold process_data
  rw [processLoop_spec]
  simp [h]

/-- Outcome of a valid-format run with at least one success. -/
lemma process_data_outcome_ok (fmt : String)
    (results : List (Except String (List EnrichedRow)))
    (hfmt : fmt ∈ validFormats) (h : oks results ≠ []) :
    (process_data fmt results).outcome
      = Except.ok ((oks results).flatten,
          { total_rows_processed := (oks results).flatten.length,
            total_files_processed := results.length }) := by
  unfold process_data
  rw [processLoop_spec]
  dsimp only
  rw [if_neg (by simpa [List.isEmpty_iff] using h)]
  unfold save_data
  rw [if_pos hfmt]

/-- Outcome of an invalid-format run with at least one success. -/
lemma process_data_outcome_badfmt (fmt : String)
    (results : List (Except String (List EnrichedRow)))
    (hfmt : fmt ∉ validFormats) (h : oks results ≠ []) :
    (process_data fmt results).outcome
      = Except.error (RunError.unsupportedFormat fmt) := by
  unfold process_data
  rw [processLoop_spec]
  dsimp only
  rw [if_neg (by simpa [List.isEmpty_iff] using h)]
  unfold save_data
  rw [if_neg hfmt]

/-! ## Claim C1 -/

/-- C1 fails on the code: on a merged dataset with a single row whose
exporter code and importer code are both the country `1`,
`generate_summary`'s `Unique Countries` scalar —
`df['i'].nunique() + df['j'].nunique()` — is `2`, while the count of
distinct identifiers in the union of the two columns is `1`: the sum
double-counts a country that appears in both columns. -/
theorem c1_unique_countries_is_sum_not_union :
    summaryUniqueCountries selfTradeDf = 2
    ∧ distinctCountriesUnion selfTradeDf = 1 := by
  constructor <;> decide

/-! ## Claim C2 -/

/-- C2 fails on the code: in a run whose first file succeeds (one row)
and whose second file raises, the run completes successfully, but the
emitted metadata's `total_files_processed` is `len(self.main_files) = 2`,
the number of discovered files, although only `1` file succeeded. -/
theorem c2_metadata_counts_discovered_files :
    (process_data "csv" runMixed).outcome
        = Except.ok ([row0],
            { total_rows_processed := 1, total_files_processed := 2 })
    ∧ (oks runMixed).length = 1 := by
  exact ⟨rfl, rfl⟩

/-! ## Claim C3 -/

/-- C3: a per-file failure is absorbed at the file-task boundary (the
`except` around `future.result()` logs and continues), so with at least
one success and a valid format the run completes, its final dataset the
concatenation of exactly the successful files' results; and the fatal
`NoDataProcessed` error is raised if and only if every submitted file
failed. -/
theorem c3_per_file_failure_isolated (fmt : String)
    (results : List (Except String (List EnrichedRow))) :
    ((process_data fmt results).outcome = Except.error RunError.noDataProcessed
        ↔ ∀ r ∈ results, isOk r = false)
    ∧ (fmt ∈ validFormats → (∃ r ∈ results, isOk r = true) →
        (process_data fmt results).outcome
          = Except.ok ((oks results).flatten,
              { total_rows_processed := (oks results).flatten.length,
                total_files_processed := results.length })) := by
  constructor
  · constructor
    · intro h
      by_contra hne
      have hoks : oks results ≠ [] := by
        intro hnil
        exact hne ((oks_eq_nil_iff results).mp hnil)
      by_cases hfmt : fmt ∈ validFormats
      · rw [process_data_outcome_ok fmt results hfmt hoks] at h
        exact absurd h (by simp)
      · rw [process_data_outcome_badfmt fmt results hfmt hoks] at h
        simp at h
    · intro h
      exact process_data_outcome_err fmt results ((oks_eq_nil_iff results).mpr h)
  · rintro hfmt ⟨r, hr, hok⟩
    apply process_data_outcome_ok fmt results hfmt
    intro hnil
    have := (oks_eq_nil_iff results).mp hnil r hr
    rw [hok] at this
    exact absurd this (by simp)

/-- Witness for C3: a run over one succeeding and one failing file with a
valid format completes with the successful file's rows. -/
theorem c3_witness :
    (process_data "csv" runMixed).outcome
      = Except.ok ((oks runMixed).flatten,
          { total_rows_processed := (oks runMixed).flatten.length,
            total_files_processed := runMixed.length }) :=
  (c3_per_file_failure_isolated "csv" runMixed).2 (by decide) (by decide)

/-! ## Claim C7 -/

/-- C7 fails on the code: in a run configured with the unsupported format
`xlsx` over one good file, the run does raise
`ValueError("Unsupported file format: xlsx")`, but only after the file
was fully processed — the progress callback (100%) and the per-file log
line have already fired, followed by the outer handler's `"Error: ..."`
line — so the format is not validated before file-processing work is
performed. -/
theorem c7_counterexample_not_eager :
    (process_data "xlsx" runOneOk).outcome
        = Except.error (RunError.unsupportedFormat "xlsx")
    ∧ (process_data "xlsx" runOneOk).progressEvents = [100]
    ∧ (process_data "xlsx" runOneOk).logEvents
        = [LogEvent.fileProcessed 1,
           LogEvent.errorLine (RunError.unsupportedFormat "xlsx")] := by
  exact ⟨rfl, rfl, rfl⟩

/-- C7 as amended: a run configured with a format outside
`{parquet, feather, csv, hdf5}` in which at least one file succeeds fails
fatally with the unsupported-format error, but the format is validated
only at the save step, after all file-processing work has been performed:
the full progress trace of a valid-format run is delivered, and the log
trace is all the per-file lines in submission order followed by the
single `"Error: Unsupported file format ..."` line from the outer
handler (in place of a valid run's completion lines). -/
theorem c7_amended_late_validation (fmt : String)
    (results : List (Except String (List EnrichedRow)))
    (hfmt : fmt ∉ validFormats) (h : ∃ r ∈ results, isOk r = true) :
    (process_data fmt results).outcome
        = Except.error (RunError.unsupportedFormat fmt)
    ∧ (process_data fmt results).progressEvents
        = (process_data "parquet" results).progressEvents
    ∧ (process_data fmt results).logEvents
        = (succIdxFrom results 0).map (fun x => LogEvent.fileProcessed (x + 1))
          ++ [LogEvent.errorLine (RunError.unsupportedFormat fmt)] := by
  obtain ⟨r, hr, hok⟩ := h
  have hoks : oks results ≠ [] := by
    intro hnil
    have := (oks_eq_nil_iff results).mp hnil r hr
    rw [hok] at this
    exact absurd this (by simp)
  refine ⟨process_data_outcome_badfmt fmt results hfmt hoks, ?_, ?_⟩
  · rw [process_data_progress fmt results, process_data_progress "parquet" results]
  · exact process_data_log_badfmt fmt results hfmt hoks

/-- Witness for C7's amended claim at format `xlsx` over one good file:
the fatal unsupported-format outcome, a progress trace identical to the
valid-format run's, and the per-file log line before the error line. -/
theorem c7_witness :
    (process_data "xlsx" runOneOk).outcome
        = Except.error (RunError.unsupportedFormat "xlsx")
    ∧ (process_data "xlsx" runOneOk).progressEvents
        = (process_data "parquet" runOneOk).progressEvents
    ∧ (process_data "xlsx" runOneOk).logEvents
        = [LogEvent.fileProcessed 1,
           LogEvent.errorLine (RunError.unsupportedFormat "xlsx")] := by
  have h := c7_amended_late_validation "xlsx" runOneOk (by decide) (by decide)
  exact ⟨h.1, h.2.1, h.2.2⟩

/-! ## Claim C8 -/

/-- C8: within `process_file`, each chunk read from the main file has its
null `q` (quantity) and `v` (value) fields imputed to `0` by
`fillna({'q': 0, 'v': 0})` before the chunk reaches `process_chunk`'s
joins, and the imputation leaves every other field, and every non-null
`q`/`v`, unchanged (`Option.getD`: `none ↦ 0`, `some x ↦ x`). -/
theorem c8_nulls_imputed_before_join (countries : List CountryEntry)
    (products : List ProductEntry) (u : Bool) (f : ℚ) (seed chunk_size : Nat)
    (rows : List RawRow) :
    process_file countries products u f seed chunk_size rows
        = (chunksOf chunk_size rows).flatMap (fun chunk =>
            stratified_sample u f seed
              (process_chunk countries products (chunk.map fillQV)))
    ∧ ∀ chunk ∈ chunksOf chunk_size rows, ∀ r ∈ chunk,
        (fillQV r).t = r.t ∧ (fillQV r).i = r.i ∧ (fillQV r).j = r.j
        ∧ (fillQV r).k = r.k ∧ (fillQV r).q = r.q.getD 0
        ∧ (fillQV r).v = r.v.getD 0 := by
  exact ⟨rfl, fun chunk _ r _ => ⟨rfl, rfl, rfl, rfl, rfl, rfl⟩⟩

/-- Witness for C8 on a one-chunk file containing a row with null
quantity and value 5: the filled row reaching the join has quantity 0,
value 5 and unchanged period. -/
theorem c8_witness :
    (fillQV rawNull).q = 0 ∧ (fillQV rawNull).v = 5
    ∧ (fillQV rawNull).t = 2020 := by
  have h := (c8_nulls_imputed_before_join [] [] true 1 0 1 [rawNull]).2
    [rawNull] (by decide) rawNull (by decide)
  exact ⟨h.2.2.2.2.1, h.2.2.2.2.2, h.1⟩

/-! ## Claim C9 -/

/-- C9: `process_data` awaits the futures by iterating the `futures`
list itself (`enumerate(futures)`), i.e. in submission order — the order
main files were discovered.  Hence the log and progress events are
exactly one per successful file, carrying the submission indices in
strictly increasing order, and the final dataset is the concatenation of
the successful per-file results in that fixed order. -/
theorem c9_collection_in_submission_order (fmt : String)
    (results : List (Except String (List EnrichedRow))) :
    (∃ tail, (process_data fmt results).logEvents
        = (succIdxFrom results 0).map (fun x => LogEvent.fileProcessed (x + 1))
          ++ tail
      ∧ ∀ i, LogEvent.fileProcessed i ∉ tail)
    ∧ (process_data fmt results).logEvents.filterMap logFileOrdinal
        = (succIdxFrom results 0).map (fun x => x + 1)
    ∧ (process_data fmt results).progressEvents
        = (succIdxFrom results 0).map (fun x => ((x + 1) * 100) / results.length)
    ∧ ((process_data fmt results).logEvents.filterMap logFileOrdinal).Chain' (· < ·)
    ∧ (fmt ∈ validFormats → (∃ r ∈ results, isOk r = true) →
        ∃ m, (process_data fmt results).outcome
          = Except.ok ((oks results).flatten, m)) := by
  refine ⟨process_data_log_split fmt results,
    process_data_log_ordinals fmt results,
    process_data_progress fmt results, ?_, ?_⟩
  · rw [process_data_log_ordinals fmt results]
    rw [List.chain'_map]
    exact (succIdxFrom_chain results 0).imp (fun h => by omega)
  · rintro hfmt ⟨r, hr, hok⟩
    have hoks : oks results ≠ [] := by
      intro hnil
      have := (oks_eq_nil_iff results).mp hnil r hr
      rw [hok] at this
      exact absurd this (by simp)
    exact ⟨_, process_data_outcome_ok fmt results hfmt hoks⟩

/-- Witness for C9 on a run with a succeeding first file and a failing
second file: one per-file log event (file 1), one progress event (50%),
and the final dataset is the first file's rows. -/
theorem c9_witness :
    (process_data "csv" runMixed).logEvents.filterMap logFileOrdinal = [1]
    ∧ (process_data "csv" runMixed).progressEvents = [50]
    ∧ ∃ m, (process_data "csv" runMixed).outcome = Except.ok ([row0], m) := by
  have h := c9_collection_in_submission_order "csv" runMixed
  exact ⟨h.2.1, h.2.2.1, h.2.2.2.2 (by decide) (by decide)⟩

/-! ## Claim C10 -/

/-- C10: when a submitted file's task fails, no log event (and hence no
progress event — there is exactly one of each per success) is delivered
for that file; and the last delivered progress percentage is 100 exactly
when the last-submitted file succeeded, even in runs that complete
successfully. -/
theorem c10_no_callbacks_for_failed_file (fmt : String)
    (results : List (Except String (List EnrichedRow))) :
    (∀ i e, results[i]? = some (Except.error e) →
        LogEvent.fileProcessed (i + 1) ∉ (process_data fmt results).logEvents)
    ∧ (process_data fmt results).progressEvents.length = (oks results).length
    ∧ ((process_data fmt results).progressEvents.getLast? = some 100
        ↔ ∃ d, results.getLast? = some (Except.ok d)) := by
  have hf := process_data_progress fmt results
  refine ⟨?_, ?_, ?_⟩
  · intro i e he hmem
    obtain ⟨tail, hsplit, htail⟩ := process_data_log_split fmt results
    rw [hsplit] at hmem
    rcases List.mem_append.mp hmem with hm | hm
    · obtain ⟨x, hx, hxe⟩ := List.mem_map.mp hm
      have hxi : x = i := by
        have := LogEvent.fileProcessed.inj hxe
        omega
      subst hxi
      obtain ⟨-, d, hd⟩ := (mem_succIdxFrom results 0 x).mp hx
      rw [Nat.sub_zero] at hd
      rw [he] at hd
      simp at hd
    · exact htail (i + 1) hm
  · rw [hf, List.length_map]
    exact succIdxFrom_length results 0
  · rw [hf, getLast?_map_eq]
    constructor
    · intro h
      rcases hl : (succIdxFrom results 0).getLast? with _ | i
      · rw [hl] at h; simp at h
      · rw [hl] at h
        simp only [Option.map_some', Option.some_inj] at h
        have hib := succIdxFrom_bounds results 0 i (mem_of_getLast?_eq _ i hl)
        have hn : 0 < results.length := by omega
        have hge : results.length ≤ i + 1 := by
          have h100 : (100 : Nat) ≤ ((i + 1) * 100) / results.length := h.ge
          have := (Nat.le_div_iff_mul_le hn).mp h100
          omega
        have hieq : i = 0 + results.length - 1 := by omega
        rw [hieq] at hl
        exact (succIdxFrom_getLast results 0).mp hl
    · intro h
      have hne : results ≠ [] := by
        intro hnil
        rw [hnil] at h
        obtain ⟨d, hd⟩ := h
        simp at hd
      have hn : 0 < results.length := List.length_pos.mpr hne
      have hl := (succIdxFrom_getLast results 0).mpr h
      rw [hl]
      simp only [Option.map_some', Option.some_inj]
      have : 0 + results.length - 1 + 1 = results.length := by omega
      rw [this]
      exact Nat.mul_div_cancel_left 100 hn

/-- Witness for C10 on a run whose last-submitted file fails: no log line
carries that file's ordinal 2, the last delivered progress is not 100,
and yet the run as a whole completes successfully. -/
theorem c10_witness :
    LogEvent.fileProcessed 2 ∉ (process_data "csv" runMixed).logEvents
    ∧ ¬ (process_data "csv" runMixed).progressEvents.getLast? = some 100
    ∧ (process_data "csv" runMixed).outcome
        = Except.ok ([row0],
            { total_rows_processed := 1, total_files_processed := 2 }) := by
  have h := c10_no_callbacks_for_failed_file "csv" runMixed
  refine ⟨h.1 1 "corrupted file" rfl, ?_, rfl⟩
  intro hc
  obtain ⟨d, hd⟩ := (h.2.2).mp hc
  simp [runMixed] at hd

end BACI
